import Mathlib

/-!
Verification development for the ChromeFRD readiness dashboard
(src/dashboard.py).  The core logic of the repository is embedded
shallowly: JSON-compatible Python values become the inductive `JVal`,
the fallible attribute accesses of `extract_readiness_rows` become an
`Except`-valued resolution step, numbers become `Int`/`ℚ` with
Python's truncation and round-half-to-even made explicit, and the
line-oriented `parse_json_text` and the `load_board` read loop are
translated function by function.
-/

set_option linter.unusedVariables false

namespace ChromeFRD

/-- JSON-compatible Python values as produced by `json.loads`.  Python
distinguishes ints from floats (`str(1) = "1"` but `str(1.0) = "1.0"`,
and `0 is False` does not hold), so integers and floats are separate
constructors; `null` doubles as Python `None`, which is also what
`dict.get` returns for a missing key. -/
inductive JVal where
  | null
  | bool (b : Bool)
  | num (n : Int)
  | flt (q : ℚ)
  | str (s : String)
  | arr (xs : List JVal)
  | obj (kvs : List (String × JVal))
deriving Inhabited

/-- A parsed log event: a Python dict with string keys (the shape
`parse_json_text` guarantees for every element it returns). -/
abbrev Dict := List (String × JVal)

/-- Whether a value is a Python mapping. -/
def JVal.isObj : JVal → Bool
  | .obj _ => true
  | _ => false

/-- Whether a value is Python `None` (JSON null). -/
def JVal.isNull : JVal → Bool
  | .null => true
  | _ => false

/-- Python truthiness of a JSON-compatible value. -/
def JVal.truthy : JVal → Bool
  | .null => false
  | .bool b => b
  | .num n => n != 0
  | .flt q => q != 0
  | .str s => !s.data.isEmpty
  | .arr xs => !xs.isEmpty
  | .obj kvs => !kvs.isEmpty

/-- First-match lookup in an association list, returning `null` for a
missing key exactly as Python `dict.get` returns `None`. -/
def dget1 (kvs : List (String × JVal)) (k : String) : JVal :=
  match kvs with
  | [] => .null
  | (k1, v) :: rest => if k1 = k then v else dget1 rest k

/-- `e.get(k)` on an event dict. -/
def dget (e : Dict) (k : String) : JVal := dget1 e k

/-- Total lookup on a `JVal`: `null` when the value is not a mapping or
the key is missing.  Used to state shape predicates; the fallible
variant used by the embedding itself is `pyGet`. -/
def JVal.oget : JVal → String → JVal
  | .obj kvs, k => dget1 kvs k
  | _, _ => .null

/-- `v.get(k)` in Python: returns the value (or `None`) on a dict and
raises `AttributeError` on every other type, including falsy
non-dicts such as `""` or `[]`. -/
def pyGet (v : JVal) (k : String) : Except String JVal :=
  if v.isObj then .ok (v.oget k) else .error "AttributeError"

/-- Python `a or b` (the call sites only ever use the result, so the
returned value is the first truthy operand, else the second). -/
def pyOr (a b : JVal) : JVal := if a.truthy then a else b

/-- Python `v[0]`, as used in `disks[0]`: indexes lists and strings,
raises `KeyError` on a dict (JSON object keys are strings, never the
int `0`) and `TypeError` on scalars. -/
def pySubscriptZero (v : JVal) : Except String JVal :=
  match v with
  | .arr (x :: _) => .ok x
  | .arr [] => .error "IndexError"
  | .str s =>
    match s.data with
    | c :: _ => .ok (.str (String.mk [c]))
    | [] => .error "IndexError"
  | .obj _ => .error "KeyError"
  | _ => .error "TypeError"

/-- Python `for x in v`: lists yield elements, strings yield their
characters, dicts yield their keys, everything else raises
`TypeError`. -/
def pyIter (v : JVal) : Except String (List JVal) :=
  match v with
  | .arr xs => .ok xs
  | .str s => .ok (s.data.map fun c => .str (String.mk [c]))
  | .obj kvs => .ok (kvs.map fun p => .str p.1)
  | _ => .error "TypeError"

/-- ASCII case folding (model of Python `str.lower` on the ASCII
strings the checks compare against). -/
def lowerChar (c : Char) : Char :=
  if 'A' ≤ c ∧ c ≤ 'Z' then Char.ofNat (c.toNat + 32) else c

/-- Lower-cased copy of a string. -/
def lowerStr (s : String) : String := String.mk (s.data.map lowerChar)

/-- `str(v).lower() in ("true", "1", "yes", "on")` from lines 176-177 of
dashboard.py.  `str(True).lower()` is `"true"`, `str(1)` is `"1"`; the
`str` of a float always contains a dot or exponent, `str(None)` is
`"none"`, and the rendering of a list or dict starts with a bracket,
so none of those can be in the tuple. -/
def str_flag_ok : JVal → Bool
  | .str s =>
    let t := lowerStr s
    (t == "true") || (t == "1") || (t == "yes") || (t == "on")
  | .bool b => b
  | .num n => n == 1
  | _ => false

/-- Substring test on character lists (Python `pat in s`). -/
def clHasSub (pat : List Char) : List Char → Bool
  | [] => pat.isEmpty
  | c :: rest => pat.isPrefixOf (c :: rest) || clHasSub pat rest

/-- `tpm_ok = isinstance(tpm, str) and "2.0" in tpm` (line 173). -/
def tpm_ok (tpm : JVal) : Bool :=
  match tpm with
  | .str s => clHasSub "2.0".data s.data
  | _ => false

/-- Python `v is False`: only the bool `False` itself qualifies (the
int `0` is a different object). -/
def isFalseLit : JVal → Bool
  | .bool false => true
  | _ => false

/-- `bit_ok = (bit_enabled is False) and (bit_encrypted is False)`
(line 174). -/
def bit_ok (bitEnabled bitEncrypted : JVal) : Bool :=
  isFalseLit bitEnabled && isFalseLit bitEncrypted

/-- ASCII whitespace test used by the `strip` model. -/
def isSpaceChar (c : Char) : Bool :=
  (c == ' ') || (c == '\t') || (c == '\n') || (c == '\r') || (c == '\x0b') || (c == '\x0c')

/-- Python `str.strip()` on a character list. -/
def stripChars (cs : List Char) : List Char :=
  ((cs.dropWhile isSpaceChar).reverse.dropWhile isSpaceChar).reverse

/-- Decimal digits to a natural number. -/
def digitsToNat : List Char → Nat → Nat
  | [], acc => acc
  | c :: rest, acc => digitsToNat rest (acc * 10 + (c.toNat - '0'.toNat))

/-- Python `int(...)` restricted to the values that can appear here:
ints pass through, floats truncate toward zero, bools are 0/1, strings
parse as an optionally signed decimal integer with surrounding
whitespace, and every other type fails (both `TypeError` and
`ValueError` are caught at the call sites, so failure is an `Option`).
Underscore digit grouping is not modelled. -/
def pyToInt : JVal → Option Int
  | .num n => some n
  | .flt q => some (Int.tdiv q.num (q.den : Int))
  | .bool b => some (if b then 1 else 0)
  | .str s =>
    let core : List Char → Option Int := fun ds =>
      if !ds.isEmpty && ds.all Char.isDigit then some (digitsToNat ds 0 : Int) else none
    match stripChars s.data with
    | '-' :: ds => (core ds).map (fun n => -n)
    | '+' :: ds => core ds
    | ds => core ds
  | _ => none

/-- Round to the nearest integer with ties to even, the behaviour of
Python `round`. -/
def roundHalfEven (q : ℚ) : Int :=
  let n := ⌊q⌋
  let f := q - (n : ℚ)
  if f < 1 / 2 then n
  else if 1 / 2 < f then n + 1
  else if n % 2 = 0 then n else n + 1

/-- Python `round(x, 1)`, idealised over exact rationals. -/
def roundTo1 (q : ℚ) : ℚ := ((roundHalfEven (q * 10) : Int) : ℚ) / 10

/-- `free_gb = round(int(free) / (1024**3), 1)` with the whole
computation guarded by `try`/`except` (lines 150-154). -/
def free_gb_of (free : JVal) : Option ℚ :=
  (pyToInt free).map fun n => roundTo1 ((n : ℚ) / 1073741824)

/-- `free_pct` from lines 155-159: `None` when `int(free)` or
`int(total)` raises, when `total` is `None`, or when `t` is not
positive. -/
def free_pct_of (free total : JVal) : Option ℚ :=
  match pyToInt free with
  | none => none
  | some f =>
    match total with
    | .null => none
    | tv =>
      match pyToInt tv with
      | none => none
      | some t => if 0 < t then some (roundTo1 ((f : ℚ) / (t : ℚ) * 100)) else none

/-- `free_ok = (free_gb is not None) and (free_gb >= MIN_FREE_GB)`
(line 175). -/
def free_ok (freeGb : Option ℚ) (minFree : ℚ) : Bool :=
  match freeGb with
  | some g => decide (minFree ≤ g)
  | none => false

/-- A Python `datetime` reduced to what the dashboard observes: an
instant (seconds since the Unix epoch, fractional allowed) and whether
the object is timezone-aware. -/
structure PyDT where
  epoch : ℚ
  aware : Bool
deriving DecidableEq, Inhabited

/-- Two-digit decimal reading. -/
def d2 (a b : Char) : Nat := (a.toNat - 48) * 10 + (b.toNat - 48)

/-- Gregorian day number (differences only are ever used). -/
def civilDays (y m d : Nat) : Int :=
  let mp := (m + 9) % 12
  let y2 := y - mp / 10
  ((365 * y2 + y2 / 4 - y2 / 100 + y2 / 400 + (mp * 306 + 5) / 10 + (d - 1) : Nat) : Int)

/-- Seconds past midnight. -/
def hmsToSecs (h mi s : Nat) : Nat := 3600 * h + 60 * mi + s

/-- Epoch seconds of a civil date-time with a UTC offset in minutes. -/
def epochOf (y mo d : Nat) (secs : Nat) (offMinutes : Int) : ℚ :=
  ((((civilDays y mo d - civilDays 1970 1 1) * 86400 + (secs : Int) - offMinutes * 60) : Int) : ℚ)

/-- Validated calendar date from eight digit characters. -/
def dateCore (y1 y2 y3 y4 m1 m2 dd1 dd2 : Char) : Option (Nat × Nat × Nat) :=
  if [y1, y2, y3, y4, m1, m2, dd1, dd2].all Char.isDigit then
    let y := d2 y1 y2 * 100 + d2 y3 y4
    let mo := d2 m1 m2
    let d := d2 dd1 dd2
    if 1 ≤ mo && mo ≤ 12 && 1 ≤ d && d ≤ 31 then some (y, mo, d) else none
  else none

/-- Validated time of day from six digit characters. -/
def timeCore (h1 h2 n1 n2 s1 s2 : Char) : Option Nat :=
  if [h1, h2, n1, n2, s1, s2].all Char.isDigit then
    let h := d2 h1 h2
    let mi := d2 n1 n2
    let ss := d2 s1 s2
    if h ≤ 23 && mi ≤ 59 && ss ≤ 59 then some (hmsToSecs h mi ss) else none
  else none

/-- Model of the external `dateutil.parser.parse` collaborator,
restricted to ISO-8601 timestamps: `YYYY-MM-DD`, optionally followed
by a `T` or space and `HH:MM:SS`, optionally followed by `Z` or a
`±HH:MM` offset.  A timestamp without an offset parses as a naive
datetime (`aware = false`); other shapes fail, which `safe_dt` turns
into `None`. -/
def parseDateChars : List Char → Option PyDT
  | [y1, y2, y3, y4, '-', m1, m2, '-', dd1, dd2] =>
    (dateCore y1 y2 y3 y4 m1 m2 dd1 dd2).map fun (y, mo, d) =>
      ⟨epochOf y mo d 0 0, false⟩
  | [y1, y2, y3, y4, '-', m1, m2, '-', dd1, dd2, sep, h1, h2, ':', n1, n2, ':', s1, s2] =>
    if sep == 'T' || sep == ' ' then
      match dateCore y1 y2 y3 y4 m1 m2 dd1 dd2, timeCore h1 h2 n1 n2 s1 s2 with
      | some (y, mo, d), some secs => some ⟨epochOf y mo d secs 0, false⟩
      | _, _ => none
    else none
  | [y1, y2, y3, y4, '-', m1, m2, '-', dd1, dd2, sep, h1, h2, ':', n1, n2, ':', s1, s2, 'Z'] =>
    if sep == 'T' || sep == ' ' then
      match dateCore y1 y2 y3 y4 m1 m2 dd1 dd2, timeCore h1 h2 n1 n2 s1 s2 with
      | some (y, mo, d), some secs => some ⟨epochOf y mo d secs 0, true⟩
      | _, _ => none
    else none
  | [y1, y2, y3, y4, '-', m1, m2, '-', dd1, dd2, sep, h1, h2, ':', n1, n2, ':', s1, s2,
     sg, o1, o2, ':', o3, o4] =>
    if (sep == 'T' || sep == ' ') && (sg == '+' || sg == '-') && [o1, o2, o3, o4].all Char.isDigit then
      match dateCore y1 y2 y3 y4 m1 m2 dd1 dd2, timeCore h1 h2 n1 n2 s1 s2 with
      | some (y, mo, d), some secs =>
        let off : Int := (d2 o1 o2 * 60 + d2 o3 o4 : Nat)
        some ⟨epochOf y mo d secs (if sg == '-' then -off else off), true⟩
      | _, _ => none
    else none
  | _ => none

/-- String front-end for the date parser model. -/
def parseDate (s : String) : Option PyDT := parseDateChars s.data

/-- `safe_dt` from lines 111-124: numbers (and bools, since Python
`bool` is an `int` subtype) go through `fromtimestamp` with the UTC
timezone and come out aware, strings go through `dateutil`, and
everything else is `None`.  All exceptions are caught inside. -/
def safe_dt : JVal → Option PyDT
  | .null => none
  | .num n => some ⟨(n : ℚ), true⟩
  | .flt q => some ⟨q, true⟩
  | .bool b => some ⟨if b then 1 else 0, true⟩
  | .str s => parseDate s
  | .arr _ => none
  | .obj _ => none

/-- The `Networks` loop of lines 164-168: take the first element whose
`IPAddresses` is a non-empty list; `n.get` raises on a non-dict
element, and elements after the first hit are never touched. -/
def findActiveIp : List JVal → Except String (Option JVal)
  | [] => .ok none
  | n :: rest =>
    match pyGet n "IPAddresses" with
    | .error e => .error e
    | .ok ips =>
      match ips with
      | .arr (x :: _) => .ok (some x)
      | _ => findActiveIp rest

/-- Line 171: `round((datetime.now(tz=lbu.tzinfo or timezone.utc) - lbu)
.total_seconds() / 86400, 1) if lbu else None`.  When `lbu` is naive
the subtraction of a naive datetime from an aware one raises
`TypeError`, and nothing catches it. -/
def boot_age_days (now : ℚ) : Option PyDT → Except String (Option ℚ)
  | none => .ok none
  | some dt =>
    if dt.aware then .ok (some (roundTo1 ((now - dt.epoch) / 86400))) else .error "TypeError"

/-- Comma-join for the `repr` model. -/
def joinComma : List String → String
  | [] => ""
  | [s] => s
  | s :: rest => s ++ ", " ++ joinComma rest

mutual

/-- Python `repr` of a parsed-JSON value (escape sequences inside
strings are not modelled; only the cosmetic OS label ever renders a
non-string through this). -/
def pyRepr : JVal → String
  | .null => "None"
  | .bool b => if b then "True" else "False"
  | .num n => toString n
  | .flt q => toString q
  | .str s => "\x27" ++ s ++ "\x27"
  | .arr xs => "[" ++ joinComma (pyReprList xs) ++ "]"
  | .obj kvs => "\x7b" ++ joinComma (pyReprPairs kvs) ++ "\x7d"

/-- Helper for `pyRepr` on list elements. -/
def pyReprList : List JVal → List String
  | [] => []
  | x :: xs => pyRepr x :: pyReprList xs

/-- Helper for `pyRepr` on dict items. -/
def pyReprPairs : List (String × JVal) → List String
  | [] => []
  | (k, v) :: rest => ("\x27" ++ k ++ "\x27: " ++ pyRepr v) :: pyReprPairs rest

end

/-- Python `str()` of a parsed-JSON value (used by the f-string at
line 195). -/
def pyStr : JVal → String
  | .str s => s
  | v => pyRepr v

/-- `f"{os_name or ''} {os_ver or ''}".strip()` from line 195. -/
def osLabelOf (osName osVer : JVal) : String :=
  String.mk (stripChars (pyStr (pyOr osName (.str "")) ++ " " ++ pyStr (pyOr osVer (.str ""))).data)

/-- Shape predicate on the first disk entry: either there is no `Disks`
value (or a falsy one, which line 133 replaces by `[]`) or the first
element is a mapping. -/
def disksShapeOk (v : JVal) : Bool :=
  match v with
  | .arr [] => true
  | .arr (x :: _) => x.isObj
  | _ => false

/-- The events on which `extract_readiness_rows` completes without
raising: every truthy `sysinfo`, `Hardware` and `OS` value is a
mapping, `Disks` is a list whose first element (if any) is a mapping,
`Networks` is a list of mappings, and a parseable `LastBootUpTime`
carries timezone information (a naive one makes the aware-minus-naive
subtraction at line 171 raise `TypeError`). -/
def eventWellShaped (e : Dict) : Bool :=
  let s := pyOr (dget e "sysinfo") (.obj [])
  let osinfo := pyOr (s.oget "OS") (.obj [])
  s.isObj &&
    (pyOr (s.oget "Hardware") (.obj [])).isObj &&
    osinfo.isObj &&
    disksShapeOk (pyOr (s.oget "Disks") (.arr [])) &&
    (match pyOr (s.oget "Networks") (.arr []) with
     | .arr xs => xs.all JVal.isObj
     | _ => false) &&
    (match safe_dt (osinfo.oget "LastBootUpTime") with
     | some dt => dt.aware
     | none => true)

/-- The raw values `extract_readiness_rows` pulls out of one event
before the pure classification step. -/
structure Raw where
  ts : Option PyDT
  level : JVal
  msg : JVal
  tag : JVal
  uefi : JVal
  sboot : JVal
  tpm : JVal
  bitEnabled : JVal
  bitEncrypted : JVal
  freeRaw : JVal
  totalRaw : JVal
  osName : JVal
  osVer : JVal
  model : JVal
  family : JVal
  activeIp : Option JVal
  lbu : Option PyDT
  bootAge : Option ℚ
deriving Inhabited

/-- One output row of `extract_readiness_rows` (the dict appended at
lines 181-203). -/
structure Row where
  blob : String
  time : Option PyDT
  level : JVal
  msg : JVal
  service_tag : JVal
  UEFI : Option Bool
  SecureBoot : Option Bool
  TPM2 : Option Bool
  BitLockerOff : Option Bool
  FreeGB : Option ℚ
  FreePct : Option ℚ
  OS : String
  Model : JVal
  Family : JVal
  ActiveIP : Option JVal
  LastBoot : Option PyDT
  BootAgeDays : Option ℚ
  Ready : Bool
deriving Inhabited

/-- Line 134: `disk0 = disks[0] if disks else {}`. -/
def disk0Of (disks : JVal) : Except String JVal :=
  if disks.truthy then pySubscriptZero disks else Except.ok (.obj [])

/-- Line 139: `tag = e.get("service_tag") or hw.get("ServiceTag") or
e.get("ServiceTag") or e.get("serviceTag")`, with Python's
short-circuit `or`: `hw.get` is only reached (and can only raise) when
the first operand is falsy. -/
def tagOf (e : Dict) (hw : JVal) : Except String JVal :=
  let a := dget e "service_tag"
  if a.truthy then Except.ok a else do
    let b ← pyGet hw "ServiceTag"
    if b.truthy then Except.ok b else
      Except.ok (pyOr (dget e "ServiceTag") (dget e "serviceTag"))

/-- The fallible field navigation of `extract_readiness_rows`
(lines 130-171), performing the Python attribute accesses in source
order so that exactly the inputs that raise in Python produce
`.error`. -/
def resolveEvent (now : ℚ) (e : Dict) : Except String Raw := do
  let s := pyOr (dget e "sysinfo") (.obj [])
  let hwJ ← pyGet s "Hardware"
  let hw := pyOr hwJ (.obj [])
  let osJ ← pyGet s "OS"
  let osinfo := pyOr osJ (.obj [])
  let disksJ ← pyGet s "Disks"
  let disks := pyOr disksJ (.arr [])
  let disk0 ← disk0Of disks
  let ts := safe_dt (pyOr (dget e "time") (pyOr (dget e "@timestamp") (dget e "timestamp")))
  let level := pyOr (dget e "level") (pyOr (dget e "Level") (dget e "severity"))
  let msg := pyOr (dget e "msg") (pyOr (dget e "message") (dget e "Message"))
  let tag ← tagOf e hw
  let uefi ← pyGet hw "isUsingUEFI"
  let sboot ← pyGet hw "safebootEnabled"
  let tpm ← pyGet hw "tpmSpecVersion"
  let bitEnabled ← pyGet disk0 "BitLockerEnabled"
  let bitEncrypted ← pyGet disk0 "BitLockerEncrypted"
  let freeRaw ← pyGet disk0 "FreeSpace"
  let totalRaw ← pyGet disk0 "TotalSize"
  let osName ← pyGet osinfo "FriendlyName"
  let osVer ← pyGet osinfo "Version"
  let model ← pyGet hw "Model"
  let family ← pyGet hw "SystemFamily"
  let networksJ ← pyGet s "Networks"
  let nws ← pyIter (pyOr networksJ (.arr []))
  let activeIp ← findActiveIp nws
  let lbuJ ← pyGet osinfo "LastBootUpTime"
  let lbu := safe_dt lbuJ
  let bootAge ← boot_age_days now lbu
  Except.ok
    { ts, level, msg, tag, uefi, sboot, tpm, bitEnabled, bitEncrypted,
      freeRaw, totalRaw, osName, osVer, model, family, activeIp, lbu, bootAge }

/-- The pure classification and row construction of lines 173-203. -/
def mkRow (minFree : ℚ) (blob : String) (r : Raw) : Row :=
  let free_gb := free_gb_of r.freeRaw
  let uefiOk := str_flag_ok r.uefi
  let sbootOk := str_flag_ok r.sboot
  let tpmOk := tpm_ok r.tpm
  let bitOk := bit_ok r.bitEnabled r.bitEncrypted
  let freeOk := free_ok free_gb minFree
  let ready := uefiOk && sbootOk && tpmOk && bitOk && freeOk
  { blob := blob
    time := r.ts
    level := r.level
    msg := r.msg
    service_tag := r.tag
    UEFI := if r.uefi.isNull then none else some uefiOk
    SecureBoot := if r.sboot.isNull then none else some sbootOk
    TPM2 := if r.tpm.isNull then none else some tpmOk
    BitLockerOff := if r.bitEnabled.isNull && r.bitEncrypted.isNull then none else some bitOk
    FreeGB := free_gb
    FreePct := free_pct_of r.freeRaw r.totalRaw
    OS := osLabelOf r.osName r.osVer
    Model := r.model
    Family := r.family
    ActiveIP := r.activeIp
    LastBoot := r.lbu
    BootAgeDays := r.bootAge
    Ready := ready }

/-- One loop iteration of `extract_readiness_rows`: resolve the raw
fields of an event, then classify.  The module-level `MIN_FREE_GB`
configuration value and the wall-clock instant read by
`datetime.now` at line 171 are surfaced as the explicit parameters
`minFree` and `now`. -/
def extractRow (minFree now : ℚ) (blob : String) (e : Dict) : Except String Row :=
  (resolveEvent now e).map (mkRow minFree blob)

/-- `extract_readiness_rows(events, blob_name)` (lines 127-204): one
row per event, aborting with the exception of the first event that
raises. -/
def extract_readiness_rows (minFree now : ℚ) (events : List Dict) (blob : String) :
    Except String (List Row) :=
  match events with
  | [] => .ok []
  | e :: rest => do
    let r ← extractRow minFree now blob e
    let rs ← extract_readiness_rows minFree now rest blob
    Except.ok (r :: rs)

/-! ### Basic facts about the check functions -/

theorem JVal.isNull_iff {v : JVal} : v.isNull = true ↔ v = .null := by
  cases v <;> simp [JVal.isNull]

theorem str_flag_ok_not_null {v : JVal} (h : str_flag_ok v = true) : v.isNull = false := by
  cases v <;> simp_all [str_flag_ok, JVal.isNull]

theorem tpm_ok_not_null {v : JVal} (h : tpm_ok v = true) : v.isNull = false := by
  cases v <;> simp_all [tpm_ok, JVal.isNull]

theorem isFalseLit_iff {v : JVal} : isFalseLit v = true ↔ v = .bool false := by
  cases v with
  | bool b => cases b <;> simp [isFalseLit]
  | _ => simp [isFalseLit]

theorem free_ok_iff {og : Option ℚ} {mf : ℚ} :
    free_ok og mf = true ↔ ∃ g, og = some g ∧ mf ≤ g := by
  cases og <;> simp [free_ok]

theorem and_true_split {a b : Bool} (h : (a && b) = true) : a = true ∧ b = true := by
  simp_all

/-! ### Inversion of the extractor -/

theorem extractRow_ok {mf now : ℚ} {blob : String} {e : Dict} {r : Row}
    (h : extractRow mf now blob e = .ok r) :
    ∃ raw, resolveEvent now e = .ok raw ∧ r = mkRow mf blob raw := by
  unfold extractRow at h
  cases hres : resolveEvent now e with
  | error err => rw [hres] at h; simp [Except.map] at h
  | ok raw =>
    rw [hres] at h
    simp [Except.map] at h
    exact ⟨raw, rfl, h.symm⟩

theorem mem_extract_readiness_rows {mf now : ℚ} {blob : String} {events : List Dict}
    {rows : List Row} (hok : extract_readiness_rows mf now events blob = .ok rows) :
    ∀ r ∈ rows, ∃ e ∈ events, extractRow mf now blob e = .ok r := by
  induction events generalizing rows with
  | nil =>
    unfold extract_readiness_rows at hok
    cases hok
    intro r hr
    simp at hr
  | cons e rest ih =>
    unfold extract_readiness_rows at hok
    cases h1 : extractRow mf now blob e with
    | error err => rw [h1] at hok; simp [Bind.bind, Except.bind] at hok
    | ok r1 =>
      rw [h1] at hok
      cases h2 : extract_readiness_rows mf now rest blob with
      | error err => rw [h2] at hok; simp [Bind.bind, Except.bind] at hok
      | ok rs1 =>
        rw [h2] at hok
        simp [Bind.bind, Except.bind] at hok
        intro r hr
        rw [← hok] at hr
        rcases List.mem_cons.mp hr with h | h
        · exact ⟨e, by simp, h ▸ h1⟩
        · obtain ⟨e2, he2, hx⟩ := ih h2 r h
          exact ⟨e2, by simp [he2], hx⟩

/-! ### Row-level classification facts -/

theorem mkRow_Ready_iff (mf : ℚ) (blob : String) (raw : Raw) :
    (mkRow mf blob raw).Ready = true ↔
      ((mkRow mf blob raw).UEFI = some true ∧ (mkRow mf blob raw).SecureBoot = some true ∧
       (mkRow mf blob raw).TPM2 = some true ∧ (mkRow mf blob raw).BitLockerOff = some true ∧
       ∃ g, (mkRow mf blob raw).FreeGB = some g ∧ mf ≤ g) := by
  simp only [mkRow]
  constructor
  · intro h
    simp only [Bool.and_eq_true] at h
    obtain ⟨⟨⟨⟨hu, hs⟩, ht⟩, hb⟩, hf⟩ := h
    have hbe : isFalseLit raw.bitEnabled = true := (and_true_split hb).1
    refine ⟨?_, ?_, ?_, ?_, ?_⟩
    · simp [str_flag_ok_not_null hu, hu]
    · simp [str_flag_ok_not_null hs, hs]
    · simp [tpm_ok_not_null ht, ht]
    · have : raw.bitEnabled.isNull = false := by
        rw [isFalseLit_iff.mp hbe]; rfl
      simp [this, hb]
    · exact free_ok_iff.mp hf
  · intro ⟨h1, h2, h3, h4, h5⟩
    by_cases hn1 : raw.uefi.isNull <;> simp [hn1] at h1
    by_cases hn2 : raw.sboot.isNull <;> simp [hn2] at h2
    by_cases hn3 : raw.tpm.isNull <;> simp [hn3] at h3
    by_cases hn4 : (raw.bitEnabled.isNull && raw.bitEncrypted.isNull) <;> simp [hn4] at h4
    simp only [Bool.and_eq_true]
    exact ⟨⟨⟨⟨h1, h2⟩, h3⟩, h4⟩, free_ok_iff.mpr h5⟩

theorem mkRow_absent_unknown (mf : ℚ) (blob : String) (raw : Raw) :
    (raw.uefi = .null → (mkRow mf blob raw).UEFI = none ∧ (mkRow mf blob raw).Ready = false) ∧
    (raw.sboot = .null → (mkRow mf blob raw).SecureBoot = none ∧ (mkRow mf blob raw).Ready = false) ∧
    (raw.tpm = .null → (mkRow mf blob raw).TPM2 = none ∧ (mkRow mf blob raw).Ready = false) ∧
    (raw.bitEnabled = .null ∧ raw.bitEncrypted = .null →
      (mkRow mf blob raw).BitLockerOff = none ∧ (mkRow mf blob raw).Ready = false) := by
  refine ⟨fun h => ?_, fun h => ?_, fun h => ?_, fun h => ?_⟩
  · simp [mkRow, h, JVal.isNull, str_flag_ok]
  · simp [mkRow, h, JVal.isNull, str_flag_ok]
  · simp [mkRow, h, JVal.isNull, tpm_ok]
  · simp [mkRow, h.1, h.2, JVal.isNull, bit_ok, isFalseLit]

theorem mkRow_bitlocker (mf : ℚ) (blob : String) (raw : Raw) :
    ((mkRow mf blob raw).BitLockerOff = some true ↔
       raw.bitEnabled = .bool false ∧ raw.bitEncrypted = .bool false) ∧
    ((mkRow mf blob raw).BitLockerOff = none ↔
       raw.bitEnabled = .null ∧ raw.bitEncrypted = .null) ∧
    ((mkRow mf blob raw).BitLockerOff = some false ↔
       ¬(raw.bitEnabled = .null ∧ raw.bitEncrypted = .null) ∧
       ¬(raw.bitEnabled = .bool false ∧ raw.bitEncrypted = .bool false)) := by
  simp only [mkRow]
  cases hn : (raw.bitEnabled.isNull && raw.bitEncrypted.isNull) with
  | true =>
    obtain ⟨hb1, hb2⟩ := and_true_split hn
    rw [JVal.isNull_iff.mp hb1, JVal.isNull_iff.mp hb2]
    simp
  | false =>
    have hnn : ¬(raw.bitEnabled = .null ∧ raw.bitEncrypted = .null) := by
      intro ⟨ha, hb⟩
      rw [ha, hb] at hn
      simp [JVal.isNull] at hn
    simp only [if_neg, hn, Bool.false_eq_true, if_false]
    cases hb : bit_ok raw.bitEnabled raw.bitEncrypted with
    | true =>
      obtain ⟨h1, h2⟩ := and_true_split hb
      rw [isFalseLit_iff.mp h1, isFalseLit_iff.mp h2]
      simp
    | false =>
      have : ¬(raw.bitEnabled = .bool false ∧ raw.bitEncrypted = .bool false) := by
        intro ⟨ha, hc⟩
        rw [ha, hc] at hb
        simp [bit_ok, isFalseLit] at hb
      simp [this, hnn]

theorem mkRow_freegb (mf : ℚ) (blob : String) (raw : Raw) :
    (∀ n : Int, pyToInt raw.freeRaw = some n →
       (mkRow mf blob raw).FreeGB = some (roundTo1 ((n : ℚ) / 2 ^ 30))) ∧
    (pyToInt raw.freeRaw = none → (mkRow mf blob raw).FreeGB = none) ∧
    (free_ok (mkRow mf blob raw).FreeGB mf = true ↔
       ∃ g, (mkRow mf blob raw).FreeGB = some g ∧ mf ≤ g) := by
  refine ⟨fun n h => ?_, fun h => ?_, free_ok_iff⟩
  · simp only [mkRow]
    show free_gb_of raw.freeRaw = _
    rw [free_gb_of, h]
    norm_num
  · simp only [mkRow]
    show free_gb_of raw.freeRaw = _
    rw [free_gb_of, h]
    rfl

/-! ### Well-shaped events cannot raise -/

theorem pyGet_ok {v : JVal} (k : String) (h : v.isObj = true) :
    pyGet v k = .ok (v.oget k) := by
  simp [pyGet, h]

theorem except_bind_ok {α β : Type} (a : α) (f : α → Except String β) :
    (Except.ok a >>= f) = f a := rfl

theorem findActiveIp_ok {ns : List JVal} (h : ∀ n ∈ ns, n.isObj = true) :
    ∃ o, findActiveIp ns = .ok o := by
  induction ns with
  | nil => exact ⟨none, rfl⟩
  | cons n rest ih =>
    obtain ⟨o, ho⟩ := ih (fun m hm => h m (List.mem_cons_of_mem _ hm))
    have hn := h n (List.mem_cons_self _ _)
    rw [findActiveIp, pyGet_ok _ hn]
    cases hip : JVal.oget n "IPAddresses" with
    | arr xs =>
      cases xs with
      | nil => exact ⟨o, ho⟩
      | cons x xs2 => exact ⟨some x, rfl⟩
    | null => exact ⟨o, ho⟩
    | bool b => exact ⟨o, ho⟩
    | num m => exact ⟨o, ho⟩
    | flt q => exact ⟨o, ho⟩
    | str s => exact ⟨o, ho⟩
    | obj kvs => exact ⟨o, ho⟩

theorem disk0Of_ok {v : JVal} (h : disksShapeOk v = true) :
    ∃ d0, d0.isObj = true ∧ disk0Of v = .ok d0 := by
  cases v with
  | arr xs =>
    cases xs with
    | nil => exact ⟨.obj [], rfl, rfl⟩
    | cons x xs2 => exact ⟨x, by simpa [disksShapeOk] using h, rfl⟩
  | null => simp [disksShapeOk] at h
  | bool b => simp [disksShapeOk] at h
  | num m => simp [disksShapeOk] at h
  | flt q => simp [disksShapeOk] at h
  | str s => simp [disksShapeOk] at h
  | obj kvs => simp [disksShapeOk] at h

theorem tagOf_ok {e : Dict} {hw : JVal} (h : hw.isObj = true) :
    ∃ t, tagOf e hw = .ok t := by
  cases ha : (dget e "service_tag").truthy with
  | true =>
    exact ⟨dget e "service_tag", by unfold tagOf; simp [ha]⟩
  | false =>
    cases hb : (hw.oget "ServiceTag").truthy with
    | true =>
      exact ⟨hw.oget "ServiceTag",
        by unfold tagOf; simp [ha, pyGet_ok _ h, except_bind_ok, hb]⟩
    | false =>
      exact ⟨pyOr (dget e "ServiceTag") (dget e "serviceTag"),
        by unfold tagOf; simp [ha, pyGet_ok _ h, except_bind_ok, hb]⟩

theorem pyIter_networks_ok {v : JVal}
    (h : (match v with | .arr xs => xs.all JVal.isObj | _ => false) = true) :
    ∃ xs, (∀ n ∈ xs, n.isObj = true) ∧ pyIter v = .ok xs := by
  cases v with
  | arr xs => exact ⟨xs, by simpa [List.all_eq_true] using h, rfl⟩
  | null => simp at h
  | bool b => simp at h
  | num m => simp at h
  | flt q => simp at h
  | str s => simp at h
  | obj kvs => simp at h

theorem resolveEvent_ok {now : ℚ} {e : Dict} (h : eventWellShaped e = true) :
    ∃ raw, resolveEvent now e = .ok raw := by
  unfold eventWellShaped at h
  simp only [Bool.and_eq_true] at h
  obtain ⟨⟨⟨⟨⟨hs, hhw⟩, hos⟩, hdisks⟩, hnet⟩, hlbu⟩ := h
  obtain ⟨d0, hd0, hD⟩ := disk0Of_ok hdisks
  obtain ⟨t, ht⟩ := @tagOf_ok e _ hhw
  obtain ⟨xs, hxs, hN⟩ := pyIter_networks_ok hnet
  obtain ⟨o, ho⟩ := findActiveIp_ok hxs
  unfold resolveEvent
  simp only [pyGet_ok _ hs, pyGet_ok _ hhw, pyGet_ok _ hos, pyGet_ok _ hd0,
    hD, ht, hN, ho, except_bind_ok]
  cases hL : safe_dt ((pyOr ((pyOr (dget e "sysinfo") (.obj [])).oget "OS") (.obj [])).oget
      "LastBootUpTime") with
  | none => exact ⟨_, rfl⟩
  | some dt =>
    rw [hL] at hlbu
    simp only [] at hlbu
    simp only [hL, boot_age_days, hlbu, eq_self_iff_true, if_true, except_bind_ok]
    exact ⟨_, rfl⟩

/-! ### Concrete events used by the witnesses -/

/-- An event that passes every readiness check (16 GiB free against the
default 16 GB minimum). -/
def evReady : Dict :=
  [("sysinfo", .obj
    [("Hardware", .obj
      [("isUsingUEFI", .str "true"), ("safebootEnabled", .num 1),
       ("tpmSpecVersion", .str "2.0")]),
     ("Disks", .arr
      [.obj [("BitLockerEnabled", .bool false), ("BitLockerEncrypted", .bool false),
             ("FreeSpace", .num 17179869184)]])])]

/-- The raw fields resolved from `evReady`. -/
def rawReady : Raw := (resolveEvent 0 evReady).toOption.getD default

/-- The row extracted from `evReady`. -/
def rowReady : Row := (extractRow 16 0 "blob" evReady).toOption.getD default

/-- The raw fields resolved from the empty event (every source field
absent). -/
def rawEmpty : Raw := (resolveEvent 0 ([] : Dict)).toOption.getD default

/-- The row extracted from the empty event. -/
def rowEmpty : Row := (extractRow 16 0 "blob" ([] : Dict)).toOption.getD default

/-! ### The claims -/

/-- C1: every row produced by `extract_readiness_rows` has `Ready = true`
exactly when the `UEFI`, `SecureBoot`, `TPM2` and `BitLockerOff` checks
are exactly `true` and the free-space check passes (`FreeGB` present and
at least the configured minimum `mf`); since an unknown check is `none`,
`Ready` is never `true` when any of the five checks is unknown or
false. -/
theorem C1_ready_iff_checks (mf now : ℚ) (blob : String) (events : List Dict)
    (rows : List Row) (hok : extract_readiness_rows mf now events blob = .ok rows) :
    ∀ r ∈ rows, (r.Ready = true ↔
      (r.UEFI = some true ∧ r.SecureBoot = some true ∧ r.TPM2 = some true ∧
       r.BitLockerOff = some true ∧ ∃ g, r.FreeGB = some g ∧ mf ≤ g)) := by
  intro r hr
  obtain ⟨e, he, hrow⟩ := mem_extract_readiness_rows hok r hr
  obtain ⟨raw, hres, hmk⟩ := extractRow_ok hrow
  rw [hmk]
  exact mkRow_Ready_iff mf blob raw

/-- Witness for C1 on a concrete fully-ready event. -/
theorem C1_ready_iff_checks_witness :
    extract_readiness_rows 16 0 [evReady] "blob" = .ok [rowReady] ∧
    (rowReady.Ready = true ↔
      (rowReady.UEFI = some true ∧ rowReady.SecureBoot = some true ∧
       rowReady.TPM2 = some true ∧ rowReady.BitLockerOff = some true ∧
       ∃ g, rowReady.FreeGB = some g ∧ (16 : ℚ) ≤ g)) :=
  ⟨rfl, C1_ready_iff_checks 16 0 "blob" [evReady] [rowReady] rfl rowReady (by simp)⟩

/-- C5: when the source field behind a tri-state check resolves to
Python `None` (absent field, or any missing step on its path), the
corresponding check of the produced row is unknown (`none`, not
`some false`) and the row's `Ready` flag is `false`; for the BitLocker
check this happens when both underlying disk fields are absent. -/
theorem C5_absent_check_unknown (mf now : ℚ) (blob : String) (e : Dict) (raw : Raw)
    (r : Row) (hres : resolveEvent now e = .ok raw)
    (hrow : extractRow mf now blob e = .ok r) :
    (raw.uefi = .null → r.UEFI = none ∧ r.Ready = false) ∧
    (raw.sboot = .null → r.SecureBoot = none ∧ r.Ready = false) ∧
    (raw.tpm = .null → r.TPM2 = none ∧ r.Ready = false) ∧
    (raw.bitEnabled = .null ∧ raw.bitEncrypted = .null →
      r.BitLockerOff = none ∧ r.Ready = false) := by
  obtain ⟨raw2, hres2, hmk⟩ := extractRow_ok hrow
  rw [hres] at hres2
  injection hres2 with hh
  subst hh
  rw [hmk]
  exact mkRow_absent_unknown mf blob raw

/-- Witness for C5 on the empty event, whose source fields are all
absent. -/
theorem C5_absent_check_unknown_witness :
    resolveEvent 0 ([] : Dict) = .ok rawEmpty ∧
    extractRow 16 0 "blob" ([] : Dict) = .ok rowEmpty ∧
    rawEmpty.uefi = .null ∧ rowEmpty.UEFI = none ∧ rowEmpty.Ready = false := by
  refine ⟨rfl, rfl, rfl, ?_, ?_⟩
  · exact ((C5_absent_check_unknown 16 0 "blob" [] rawEmpty rowEmpty rfl rfl).1 rfl).1
  · exact ((C5_absent_check_unknown 16 0 "blob" [] rawEmpty rowEmpty rfl rfl).1 rfl).2

/-- C6: the `BitLockerOff` check of a produced row is `some true` iff the
first disk's `BitLockerEnabled` and `BitLockerEncrypted` are both
explicitly the boolean `false`; it is unknown (`none`) iff both resolved
fields are absent; and it is `some false` iff at least one field is
present but they are not both explicitly `false`. -/
theorem C6_bitlocker_tristate (mf now : ℚ) (blob : String) (e : Dict) (raw : Raw)
    (r : Row) (hres : resolveEvent now e = .ok raw)
    (hrow : extractRow mf now blob e = .ok r) :
    (r.BitLockerOff = some true ↔
       raw.bitEnabled = .bool false ∧ raw.bitEncrypted = .bool false) ∧
    (r.BitLockerOff = none ↔ raw.bitEnabled = .null ∧ raw.bitEncrypted = .null) ∧
    (r.BitLockerOff = some false ↔
       ¬(raw.bitEnabled = .null ∧ raw.bitEncrypted = .null) ∧
       ¬(raw.bitEnabled = .bool false ∧ raw.bitEncrypted = .bool false)) := by
  obtain ⟨raw2, hres2, hmk⟩ := extractRow_ok hrow
  rw [hres] at hres2
  injection hres2 with hh
  subst hh
  rw [hmk]
  exact mkRow_bitlocker mf blob raw

/-- Witness for C6 on a concrete event whose first disk has both
BitLocker fields explicitly false. -/
theorem C6_bitlocker_tristate_witness :
    resolveEvent 0 evReady = .ok rawReady ∧
    extractRow 16 0 "blob" evReady = .ok rowReady ∧
    rowReady.BitLockerOff = some true := by
  refine ⟨rfl, rfl, ?_⟩
  exact (C6_bitlocker_tristate 16 0 "blob" evReady rawReady rowReady rfl rfl).1.mpr ⟨rfl, rfl⟩

/-- C7: `FreeGB` is the integer byte count divided by `2 ^ 30` and rounded
to one decimal, it is unknown when the field is not numeric (when
Python `int(free)` raises), and the free-space check is
boundary-inclusive (`mf ≤ g`). -/
theorem C7_freegb_spec (mf now : ℚ) (blob : String) (e : Dict) (raw : Raw) (r : Row)
    (hres : resolveEvent now e = .ok raw) (hrow : extractRow mf now blob e = .ok r) :
    (∀ n : Int, pyToInt raw.freeRaw = some n →
       r.FreeGB = some (roundTo1 ((n : ℚ) / 2 ^ 30))) ∧
    (pyToInt raw.freeRaw = none → r.FreeGB = none) ∧
    (free_ok r.FreeGB mf = true ↔ ∃ g, r.FreeGB = some g ∧ mf ≤ g) := by
  obtain ⟨raw2, hres2, hmk⟩ := extractRow_ok hrow
  rw [hres] at hres2
  injection hres2 with hh
  subst hh
  rw [hmk]
  exact mkRow_freegb mf blob raw

/-- Witness for C7 on the boundary scenario: 17,179,869,184 bytes
(16 GiB) against a minimum of 16 gives `FreeGB = 16.0` and a passing
check. -/
theorem C7_freegb_spec_witness :
    resolveEvent 0 evReady = .ok rawReady ∧
    extractRow 16 0 "blob" evReady = .ok rowReady ∧
    pyToInt rawReady.freeRaw = some 17179869184 ∧
    rowReady.FreeGB = some 16 ∧
    free_ok rowReady.FreeGB 16 = true := by
  have h := C7_freegb_spec 16 0 "blob" evReady rawReady rowReady rfl rfl
  have h1 : pyToInt rawReady.freeRaw = some 17179869184 := rfl
  have h2 := h.1 17179869184 h1
  have h3 : roundTo1 (((17179869184 : Int) : ℚ) / 2 ^ 30) = 16 := by
    push_cast
    norm_num [roundTo1, roundHalfEven]
  rw [h3] at h2
  refine ⟨rfl, rfl, h1, h2, h.2.2.mpr ⟨16, h2, le_refl 16⟩⟩

/-- C2, counterexample to the claim as stated: on an event whose
`sysinfo` value is a truthy non-mapping, line 131 calls `.get` on a
string and `extract_readiness_rows` raises `AttributeError` instead of
returning a result with degraded checks. -/
theorem C2_counterexample_raises :
    extract_readiness_rows 16 0 [[("sysinfo", JVal.str "x")]] "blob" =
      .error "AttributeError" := rfl

/-- C2 as amended: `extract_readiness_rows` returns a result (never
raises) on every event list whose events are well shaped — truthy
`sysinfo`, `Hardware` and `OS` values are mappings, `Disks` is a list
whose first element (if any) is a mapping, `Networks` is a list of
mappings, and a parseable `LastBootUpTime` is timezone-aware.  Under
that proviso any absent or falsy nested field only degrades the
corresponding check to unknown. -/
theorem C2_wellshaped_never_raises (mf now : ℚ) (blob : String) (events : List Dict)
    (h : ∀ e ∈ events, eventWellShaped e = true) :
    (extract_readiness_rows mf now events blob).isOk = true := by
  induction events with
  | nil => rfl
  | cons e rest ih =>
    obtain ⟨raw, hraw⟩ := @resolveEvent_ok now e (h e (List.mem_cons_self _ _))
    have hrow : extractRow mf now blob e = .ok (mkRow mf blob raw) := by
      rw [extractRow, hraw]; rfl
    have ih2 := ih (fun x hx => h x (List.mem_cons_of_mem _ hx))
    cases h2 : extract_readiness_rows mf now rest blob with
    | error err => rw [h2] at ih2; simp [Except.isOk, Except.toBool] at ih2
    | ok rs =>
      unfold extract_readiness_rows
      rw [hrow, except_bind_ok, h2, except_bind_ok]
      rfl

/-- Witness for the amended C2 on two concrete well-shaped events. -/
theorem C2_wellshaped_never_raises_witness :
    (extract_readiness_rows 16 0 [evReady, ([] : Dict)] "blob").isOk = true :=
  C2_wellshaped_never_raises 16 0 "blob" [evReady, ([] : Dict)] (by decide)

/-! ### C3: the extractor reads the wall clock -/

/-- An event whose `LastBootUpTime` parses as an aware datetime. -/
def evBoot : Dict :=
  [("sysinfo", .obj [("OS", .obj [("LastBootUpTime", .str "2024-01-01T00:00:00Z")])])]

/-- The epoch of `evBoot`'s boot timestamp. -/
def tEpoch : ℚ := ((parseDate "2024-01-01T00:00:00Z").getD default).epoch

theorem roundHalfEven_add_ten (q : ℚ) : roundHalfEven (q + 10) = roundHalfEven q + 10 := by
  simp only [roundHalfEven]
  have hf : ⌊q + (10 : ℚ)⌋ = ⌊q⌋ + 10 := by
    have h10 : ((10 : ℤ) : ℚ) = (10 : ℚ) := by norm_num
    rw [← h10, Int.floor_add_int]
  rw [hf]
  have hfr : q + 10 - ((⌊q⌋ + 10 : ℤ) : ℚ) = q - ((⌊q⌋ : ℤ) : ℚ) := by push_cast; ring
  rw [hfr]
  have hpar : (⌊q⌋ + 10) % 2 = ⌊q⌋ % 2 := by omega
  rw [hpar]
  split_ifs <;> omega

theorem roundTo1_add_one (x : ℚ) : roundTo1 (x + 1) = roundTo1 x + 1 := by
  simp only [roundTo1]
  have h : (x + 1) * 10 = x * 10 + 10 := by ring
  rw [h, roundHalfEven_add_ten]
  push_cast
  ring

/-- C3: the claim says `BootAgeDays` comes from a caller-supplied "now",
so that re-running on the same events is bit-identical; the code instead
calls `datetime.now` inside the loop (line 171), surfaced here as the
`now` parameter, and the same single-event list yields different
`BootAgeDays` at two instants one day apart. -/
theorem C3_wallclock_dependence :
    (extract_readiness_rows 16 1700000000 [evBoot] "blob").toOption.map
        (List.map Row.BootAgeDays) ≠
      (extract_readiness_rows 16 1700086400 [evBoot] "blob").toOption.map
        (List.map Row.BootAgeDays) := by
  have h1 : (extract_readiness_rows 16 1700000000 [evBoot] "blob").toOption.map
      (List.map Row.BootAgeDays)
      = some [some (roundTo1 (((1700000000 : ℚ) - tEpoch) / 86400))] := rfl
  have h2 : (extract_readiness_rows 16 1700086400 [evBoot] "blob").toOption.map
      (List.map Row.BootAgeDays)
      = some [some (roundTo1 (((1700086400 : ℚ) - tEpoch) / 86400))] := rfl
  rw [h1, h2]
  intro hcontra
  have hq : roundTo1 (((1700000000 : ℚ) - tEpoch) / 86400)
      = roundTo1 (((1700086400 : ℚ) - tEpoch) / 86400) := by
    simpa using hcontra
  have harg : ((1700086400 : ℚ) - tEpoch) / 86400
      = ((1700000000 : ℚ) - tEpoch) / 86400 + 1 := by
    ring
  rw [harg, roundTo1_add_one] at hq
  linarith

/-! ### Model of json.loads and parse_json_text -/

/-- JSON whitespace skipping. -/
def jskipWs : List Char → List Char
  | c :: cs => if c == ' ' || c == '\t' || c == '\n' || c == '\r' then jskipWs cs else c :: cs
  | [] => []

/-- Hex digit value. -/
def hexVal (c : Char) : Option Nat :=
  if '0' ≤ c ∧ c ≤ '9' then some (c.toNat - '0'.toNat)
  else if 'a' ≤ c ∧ c ≤ 'f' then some (c.toNat - 'a'.toNat + 10)
  else if 'A' ≤ c ∧ c ≤ 'F' then some (c.toNat - 'A'.toNat + 10)
  else none

/-- JSON string body after the opening quote.  Escapes are decoded as
by `json.loads`; surrogate pairing of `\u` escapes is not modelled (an
invalid scalar value decodes to the null character).  Raw control
characters are rejected as in strict mode. -/
def parseStringBody (acc : List Char) : List Char → Option (String × List Char)
  | '"' :: rest => some (String.mk acc.reverse, rest)
  | '\\' :: c :: rest =>
    match c with
    | '"' => parseStringBody ('"' :: acc) rest
    | '\\' => parseStringBody ('\\' :: acc) rest
    | '/' => parseStringBody ('/' :: acc) rest
    | 'n' => parseStringBody ('\n' :: acc) rest
    | 't' => parseStringBody ('\t' :: acc) rest
    | 'r' => parseStringBody ('\r' :: acc) rest
    | 'b' => parseStringBody ('\x08' :: acc) rest
    | 'f' => parseStringBody ('\x0c' :: acc) rest
    | 'u' =>
      match rest with
      | h1 :: h2 :: h3 :: h4 :: rest2 =>
        match hexVal h1, hexVal h2, hexVal h3, hexVal h4 with
        | some a, some b, some c2, some d =>
          parseStringBody (Char.ofNat (((a * 16 + b) * 16 + c2) * 16 + d) :: acc) rest2
        | _, _, _, _ => none
      | _ => none
    | _ => none
  | c :: rest => if c.toNat < 32 then none else parseStringBody (c :: acc) rest
  | [] => none

/-- Digits taken greedily from the front. -/
def takeDigits : List Char → List Char × List Char
  | c :: rest =>
    if c.isDigit then
      let (ds, r) := takeDigits rest
      (c :: ds, r)
    else ([], c :: rest)
  | [] => ([], [])

/-- JSON number grammar: optional minus, integer part without leading
zeros, optional fraction and exponent.  A plain integer becomes a
Python int (`num`); a fraction or exponent makes it a float (`flt`). -/
def parseNumber (cs : List Char) : Option (JVal × List Char) :=
  let (neg, cs1) : Bool × List Char :=
    match cs with
    | '-' :: r => (true, r)
    | r => (false, r)
  let (ints, cs2) := takeDigits cs1
  if ints.isEmpty then none
  else if ints.length > 1 && ints.headI == '0' then none
  else
    let iv : Int := (digitsToNat ints 0 : Nat)
    match cs2 with
    | '.' :: cs3 =>
      let (fr, cs4) := takeDigits cs3
      if fr.isEmpty then none
      else
        let man : ℚ := (iv : ℚ) + (digitsToNat fr 0 : Nat) / (10 : ℚ) ^ fr.length
        match cs4 with
        | e :: cs5 =>
          if e == 'e' || e == 'E' then
            let (esign, cs6) : Bool × List Char :=
              match cs5 with
              | '+' :: r => (false, r)
              | '-' :: r => (true, r)
              | r => (false, r)
            let (es, cs7) := takeDigits cs6
            if es.isEmpty then none
            else
              let ex : ℤ := (digitsToNat es 0 : Nat)
              some (.flt ((if neg then -man else man) * (10 : ℚ) ^ (if esign then -ex else ex)), cs7)
          else some (.flt (if neg then -man else man), cs4)
        | [] => some (.flt (if neg then -man else man), [])
    | e :: cs3 =>
      if e == 'e' || e == 'E' then
        let (esign, cs4) : Bool × List Char :=
          match cs3 with
          | '+' :: r => (false, r)
          | '-' :: r => (true, r)
          | r => (false, r)
        let (es, cs5) := takeDigits cs4
        if es.isEmpty then none
        else
          let ex : ℤ := (digitsToNat es 0 : Nat)
          some (.flt ((if neg then (-iv : ℚ) else (iv : ℚ)) * (10 : ℚ) ^ (if esign then -ex else ex)), cs5)
      else some (.num (if neg then -iv else iv), e :: cs3)
    | [] => some (.num (if neg then -iv else iv), [])

/-- Insert a key-value pair into an object, replacing the value of an
existing key in place (Python dicts keep the first position and the
last value for duplicate keys). -/
def objInsert (k : String) (v : JVal) : List (String × JVal) → List (String × JVal)
  | [] => [(k, v)]
  | (k1, v1) :: rest =>
    if k1 = k then (k1, v) :: rest else (k1, v1) :: objInsert k v rest

mutual

/-- Fuel-indexed recursive-descent JSON value parser. -/
def parseVal : Nat → List Char → Option (JVal × List Char)
  | 0, _ => none
  | fuel + 1, cs =>
    match jskipWs cs with
    | '{' :: rest => parseObjItems fuel (jskipWs rest) []
    | '[' :: rest => parseArrItems fuel (jskipWs rest) []
    | '"' :: rest => (parseStringBody [] rest).map (fun (s, r) => (.str s, r))
    | 't' :: 'r' :: 'u' :: 'e' :: rest => some (.bool true, rest)
    | 'f' :: 'a' :: 'l' :: 's' :: 'e' :: rest => some (.bool false, rest)
    | 'n' :: 'u' :: 'l' :: 'l' :: rest => some (.null, rest)
    | rest => parseNumber rest

/-- Items of a JSON array, with the leading whitespace already skipped. -/
def parseArrItems : Nat → List Char → List JVal → Option (JVal × List Char)
  | 0, _, _ => none
  | fuel + 1, cs, acc =>
    match cs with
    | ']' :: rest => if acc.isEmpty then some (.arr [], rest) else none
    | _ =>
      match parseVal fuel cs with
      | none => none
      | some (v, rest) =>
        match jskipWs rest with
        | ',' :: rest2 => parseArrItemsMore fuel (jskipWs rest2) (v :: acc)
        | ']' :: rest2 => some (.arr (v :: acc).reverse, rest2)
        | _ => none

/-- Items after a comma inside an array (a closing bracket is no longer
allowed immediately). -/
def parseArrItemsMore : Nat → List Char → List JVal → Option (JVal × List Char)
  | 0, _, _ => none
  | fuel + 1, cs, acc =>
    match parseVal fuel cs with
    | none => none
    | some (v, rest) =>
      match jskipWs rest with
      | ',' :: rest2 => parseArrItemsMore fuel (jskipWs rest2) (v :: acc)
      | ']' :: rest2 => some (.arr (v :: acc).reverse, rest2)
      | _ => none

/-- Members of a JSON object, with the leading whitespace already
skipped. -/
def parseObjItems : Nat → List Char → List (String × JVal) → Option (JVal × List Char)
  | 0, _, _ => none
  | fuel + 1, cs, acc =>
    match cs with
    | '}' :: rest => if acc.isEmpty then some (.obj [], rest) else none
    | '"' :: rest => parseObjMember fuel rest acc
    | _ => none

/-- One `"key": value` member (the opening quote of the key already
consumed), then a comma or the closing brace. -/
def parseObjMember : Nat → List Char → List (String × JVal) → Option (JVal × List Char)
  | 0, _, _ => none
  | fuel + 1, cs, acc =>
    match parseStringBody [] cs with
    | none => none
    | some (k, rest) =>
      match jskipWs rest with
      | ':' :: rest2 =>
        match parseVal fuel rest2 with
        | none => none
        | some (v, rest3) =>
          match jskipWs rest3 with
          | ',' :: rest4 =>
            match jskipWs rest4 with
            | '"' :: rest5 => parseObjMember fuel rest5 (objInsert k v acc)
            | _ => none
          | '}' :: rest4 => some (.obj (objInsert k v acc), rest4)
          | _ => none
      | _ => none

end

/-- Model of `json.loads`: parse one JSON document and require only
whitespace to remain.  (`NaN`/`Infinity` literals are not modelled:
they would parse to floats, which every call site discards just as it
discards a failed parse.) -/
def json_loads (s : String) : Option JVal :=
  match parseVal (2 * s.data.length + 2) s.data with
  | some (v, rest) => if (jskipWs rest).isEmpty then some v else none
  | none => none

/-- Python `str.splitlines()` restricted to the line endings that occur
in log blobs: `\n`, `\r\n` and `\r`. -/
def splitlinesAux (acc : List Char) : List Char → List String
  | [] => if acc.isEmpty then [] else [String.mk acc.reverse]
  | '\r' :: '\n' :: rest => String.mk acc.reverse :: splitlinesAux [] rest
  | '\r' :: rest => String.mk acc.reverse :: splitlinesAux [] rest
  | '\n' :: rest => String.mk acc.reverse :: splitlinesAux [] rest
  | c :: rest => splitlinesAux (c :: acc) rest

/-- `text.splitlines()`. -/
def splitlines (text : String) : List String := splitlinesAux [] text.data

/-- `ln.strip()`. -/
def pyStrip (ln : String) : String := String.mk (stripChars ln.data)

/-- The per-line loop body of `parse_json_text` (lines 86-98): blank
lines are skipped, a line parsing to a dict is appended, a line parsing
to a list contributes its dict elements, and anything else — a parse
failure or a non-container value — is ignored silently. -/
def lineScan : List String → List JVal → List JVal
  | [], out => out
  | ln :: rest, out =>
    let s := pyStrip ln
    if s.data.isEmpty then lineScan rest out
    else
      match json_loads s with
      | some (.obj kvs) => lineScan rest (out ++ [.obj kvs])
      | some (.arr xs) => lineScan rest (out ++ xs.filter JVal.isObj)
      | _ => lineScan rest out

/-- The whole-text fallback of `parse_json_text` (lines 101-109). -/
def wholeParse (text : String) : List JVal :=
  match json_loads text with
  | some (.arr xs) => xs.filter JVal.isObj
  | some (.obj kvs) => [.obj kvs]
  | _ => []

/-- `parse_json_text` (lines 79-109): on multi-line input run the
per-line scan and return its output when non-empty; otherwise (and on
single-line input) parse the entire text as one JSON document. -/
def parse_json_text (text : String) : List JVal :=
  let lines := splitlines text
  if 1 < lines.length then
    let out := lineScan lines []
    if out.isEmpty then wholeParse text else out
  else wholeParse text

/-! ### C8 and C10: properties of parse_json_text -/

theorem wholeParse_obj (text : String) : ∀ v ∈ wholeParse text, v.isObj = true := by
  intro v hv
  unfold wholeParse at hv
  cases h : json_loads text with
  | none => rw [h] at hv; simp at hv
  | some j =>
    rw [h] at hv
    cases j with
    | arr xs => exact (List.mem_filter.mp hv).2
    | obj kvs => simp at hv; rw [hv]; rfl
    | null => simp at hv
    | bool b => simp at hv
    | num n => simp at hv
    | flt q => simp at hv
    | str s => simp at hv

theorem lineScan_obj (lines : List String) (out : List JVal)
    (hout : ∀ v ∈ out, v.isObj = true) : ∀ v ∈ lineScan lines out, v.isObj = true := by
  induction lines generalizing out with
  | nil => simpa [lineScan] using hout
  | cons ln rest ih =>
    intro v hv
    unfold lineScan at hv
    by_cases hb : (pyStrip ln).data.isEmpty
    · rw [if_pos hb] at hv
      exact ih out hout v hv
    · rw [if_neg hb] at hv
      cases h : json_loads (pyStrip ln) with
      | none => rw [h] at hv; exact ih out hout v hv
      | some j =>
        rw [h] at hv
        cases j with
        | obj kvs =>
          refine ih (out ++ [.obj kvs]) ?_ v hv
          intro w hw
          rcases List.mem_append.mp hw with hw | hw
          · exact hout w hw
          · simp at hw; rw [hw]; rfl
        | arr xs =>
          refine ih (out ++ xs.filter JVal.isObj) ?_ v hv
          intro w hw
          rcases List.mem_append.mp hw with hw | hw
          · exact hout w hw
          · exact (List.mem_filter.mp hw).2
        | null => exact ih out hout v hv
        | bool b => exact ih out hout v hv
        | num n => exact ih out hout v hv
        | flt q => exact ih out hout v hv
        | str s => exact ih out hout v hv

/-- C8: for every input string, `parse_json_text` returns a (possibly
empty) list all of whose elements are mappings, and it is a total
function — lines that are not valid JSON, and JSON values that are not
objects or arrays of objects, are dropped silently rather than
propagated as errors. -/
theorem C8_elements_are_mappings (text : String) :
    ∀ v ∈ parse_json_text text, v.isObj = true := by
  intro v hv
  unfold parse_json_text at hv
  by_cases hl : 1 < (splitlines text).length
  · rw [if_pos hl] at hv
    by_cases he : (lineScan (splitlines text) []).isEmpty
    · rw [if_pos he] at hv
      exact wholeParse_obj text v hv
    · rw [if_neg he] at hv
      exact lineScan_obj (splitlines text) [] (by simp) v hv
  · rw [if_neg hl] at hv
    exact wholeParse_obj text v hv

/-- Witness for C8 on a concrete two-line NDJSON input. -/
theorem C8_elements_are_mappings_witness :
    (parse_json_text "\x7b\"a\":1\x7d\n\x7b\"b\":2\x7d").all JVal.isObj = true :=
  List.all_eq_true.mpr
    (fun v hv => C8_elements_are_mappings "\x7b\"a\":1\x7d\n\x7b\"b\":2\x7d" v hv)

/-- The records one line contributes to the per-line scan: a dict line
contributes itself, a JSON-array line contributes exactly its object
elements in order, everything else contributes nothing. -/
def lineRecords (ln : String) : List JVal :=
  match json_loads (pyStrip ln) with
  | some (.obj kvs) => [.obj kvs]
  | some (.arr xs) => xs.filter JVal.isObj
  | _ => []

theorem json_loads_empty {s : String} (h : s.data = []) : json_loads s = none := by
  unfold json_loads
  rw [h]
  rfl

theorem lineScan_eq_flatMap (lines : List String) (out : List JVal) :
    lineScan lines out = out ++ lines.flatMap lineRecords := by
  induction lines generalizing out with
  | nil => simp [lineScan]
  | cons ln rest ih =>
    unfold lineScan
    by_cases hb : (pyStrip ln).data.isEmpty
    · rw [if_pos hb, ih]
      have hrec : lineRecords ln = [] := by
        unfold lineRecords
        rw [json_loads_empty (List.isEmpty_iff.mp hb)]
      simp [hrec]
    · rw [if_neg hb]
      cases h : json_loads (pyStrip ln) with
      | none =>
        rw [ih]
        have hrec : lineRecords ln = [] := by unfold lineRecords; rw [h]
        simp [hrec]
      | some j =>
        cases j with
        | obj kvs =>
          have hrec : lineRecords ln = [.obj kvs] := by unfold lineRecords; rw [h]
          simp [ih, hrec]
        | arr xs =>
          have hrec : lineRecords ln = xs.filter JVal.isObj := by unfold lineRecords; rw [h]
          simp [ih, hrec]
        | null =>
          rw [ih]
          have hrec : lineRecords ln = [] := by unfold lineRecords; rw [h]
          simp [hrec]
        | bool b =>
          rw [ih]
          have hrec : lineRecords ln = [] := by unfold lineRecords; rw [h]
          simp [hrec]
        | num n =>
          rw [ih]
          have hrec : lineRecords ln = [] := by unfold lineRecords; rw [h]
          simp [hrec]
        | flt q =>
          rw [ih]
          have hrec : lineRecords ln = [] := by unfold lineRecords; rw [h]
          simp [hrec]
        | str s =>
          rw [ih]
          have hrec : lineRecords ln = [] := by unfold lineRecords; rw [h]
          simp [hrec]

/-- C10: on multi-line input, the per-line scan wins whenever it yields
at least one mapping and equals the concatenation, in line order, of
each line's records (a dict line contributes itself, an array line
contributes exactly its object elements in order); only when the scan
yields nothing is the entire text parsed as one JSON document, so a
pretty-printed multi-line JSON object or array still yields its
records. -/
theorem C10_line_scan_wins (text : String) (h : 1 < (splitlines text).length) :
    parse_json_text text =
      (if ((splitlines text).flatMap lineRecords).isEmpty then wholeParse text
       else (splitlines text).flatMap lineRecords) := by
  unfold parse_json_text
  rw [if_pos h, lineScan_eq_flatMap]
  simp

/-- A pretty-printed JSON object, none of whose lines is itself valid
JSON. -/
def txtPretty : String := "\x7b\n \"a\": 1\n\x7d"

/-- An NDJSON blob with a garbage line and an array line. -/
def txtLines : String := "\x7b\"a\":1\x7d\nnot json\n[\x7b\"c\":3\x7d, 7]"

/-- Witness for C10: the fallback branch recovers the pretty-printed
object, and the scan branch collects the dict line plus the array
line's object element. -/
theorem C10_line_scan_wins_witness :
    1 < (splitlines txtPretty).length ∧
    parse_json_text txtPretty = wholeParse txtPretty ∧
    wholeParse txtPretty = [.obj [("a", .num 1)]] ∧
    1 < (splitlines txtLines).length ∧
    parse_json_text txtLines = (splitlines txtLines).flatMap lineRecords ∧
    (splitlines txtLines).flatMap lineRecords =
      [.obj [("a", .num 1)], .obj [("c", .num 3)]] := by
  have h1 := C10_line_scan_wins txtPretty (by decide)
  have h2 := C10_line_scan_wins txtLines (by decide)
  have hc1 : ((splitlines txtPretty).flatMap lineRecords).isEmpty = true := rfl
  have hc2 : ((splitlines txtLines).flatMap lineRecords).isEmpty = false := rfl
  refine ⟨by decide, ?_, rfl, by decide, ?_, rfl⟩
  · rw [h1]
    simp [hc1]
  · rw [h2]
    simp [hc2]

/-! ### C9: the load_board read loop -/

/-- The listing metadata `load_board` consumes: blob name and ETag
(last-modified time and size are listed but never used by the loop). -/
structure BlobMeta where
  name : String
  etag : String
deriving DecidableEq, Inhabited

/-- Python `patterns.split(",")`. -/
def splitCommaAux (acc : List Char) : List Char → List String
  | [] => [String.mk acc.reverse]
  | ',' :: rest => String.mk acc.reverse :: splitCommaAux [] rest
  | c :: rest => splitCommaAux (c :: acc) rest

/-- Line 231: `[p.strip().lower() for p in patterns.split(",") if p.strip()]`. -/
def splitPatterns (patterns : String) : List String :=
  ((splitCommaAux [] patterns.data).filter
    (fun p => !(stripChars p.data).isEmpty)).map
    (fun p => lowerStr (String.mk (stripChars p.data)))

/-- `m[0].lower().endswith(e)` for one extension. -/
def nameMatches (exts : List String) (name : String) : Bool :=
  exts.any (fun x => List.isSuffixOf x.data (lowerStr name).data)

/-- Lines 231-233: drop blobs whose lower-cased name ends with none of
the configured extensions (no filtering when the extension list is
empty). -/
def filterByPatterns (patterns : String) (meta : List BlobMeta) : List BlobMeta :=
  let exts := splitPatterns patterns
  if exts.isEmpty then meta else meta.filter (fun m => nameMatches exts m.name)

/-- Lexicographic comparison of names (Python string `<=` on code
points), used as the sort key of line 236. -/
def clLe : List Char → List Char → Bool
  | [], _ => true
  | _ :: _, [] => false
  | a :: as, b :: bs => if a < b then true else if b < a then false else clLe as bs

/-- Sort key `lambda x: x[0]` of line 236. -/
def nameLe (a b : BlobMeta) : Bool := clLe a.name.data b.name.data

/-- Lines 236-238: sort by name, then keep only the last `max_blobs`
entries (Python `meta[-max_blobs:]`, skipped entirely when `max_blobs`
is falsy or the list is short enough). -/
def selectBlobs (patterns : String) (maxBlobs : Nat) (meta : List BlobMeta) : List BlobMeta :=
  let sorted := (filterByPatterns patterns meta).mergeSort nameLe
  if maxBlobs ≠ 0 ∧ sorted.length > maxBlobs then sorted.drop (sorted.length - maxBlobs)
  else sorted

/-- The read loop of lines 240-259 on a cold cache: `fetch` composes
`read_blob_text`, `parse_json_text` and `extract_readiness_rows` for
one blob, an empty result covers both `if not events: continue` and the
`df_rows.empty` test, and the loop breaks as soon as the accumulated
row count reaches `max_events`.  Returns (frames, scanned, reads):
the appended row batches, the scanned names, and the names actually
fetched. -/
def load_loop {α : Type} (fetch : String → List α) (maxEvents : Nat) :
    List BlobMeta → Nat → List (List α) × List String × List String
  | [], _ => ([], [], [])
  | m :: rest, total =>
    let rows := fetch m.name
    if rows.isEmpty then
      let r := load_loop fetch maxEvents rest total
      (r.1, r.2.1, m.name :: r.2.2)
    else if maxEvents ≤ total + rows.length then
      ([rows], [m.name], [m.name])
    else
      let r := load_loop fetch maxEvents rest (total + rows.length)
      (rows :: r.1, m.name :: r.2.1, m.name :: r.2.2)

/-- `load_board` (lines 222-268) reduced to its pure skeleton: select
blobs, then run the capped read loop. -/
def load_board {α : Type} (fetch : String → List α) (patterns : String)
    (maxBlobs maxEvents : Nat) (meta : List BlobMeta) :
    List (List α) × List String × List String :=
  load_loop fetch maxEvents (selectBlobs patterns maxBlobs meta) 0

/-- Total row count of the first `j` selected blobs. -/
def rowsBefore {α : Type} (fetch : String → List α) (l : List BlobMeta) (j : Nat) : Nat :=
  ((l.take j).map (fun m => (fetch m.name).length)).sum

theorem rowsBefore_zero {α : Type} (fetch : String → List α) (l : List BlobMeta) :
    rowsBefore fetch l 0 = 0 := rfl

theorem rowsBefore_cons {α : Type} (fetch : String → List α) (m : BlobMeta)
    (rest : List BlobMeta) (j : Nat) :
    rowsBefore fetch (m :: rest) (j + 1) = (fetch m.name).length + rowsBefore fetch rest j := by
  simp [rowsBefore]

theorem load_loop_reads {α : Type} (fetch : String → List α) (maxEvents : Nat)
    (l : List BlobMeta) :
    ∀ t : Nat, t < maxEvents →
      ∃ k ≤ l.length,
        (load_loop fetch maxEvents l t).2.2 = (l.map BlobMeta.name).take k ∧
        (∀ j < k, t + rowsBefore fetch l j < maxEvents) ∧
        (k < l.length → maxEvents ≤ t + rowsBefore fetch l k) := by
  induction l with
  | nil =>
    intro t ht
    exact ⟨0, Nat.le_refl 0, rfl, fun j hj => absurd hj (Nat.not_lt_zero j),
      fun hk => absurd hk (Nat.not_lt_zero 0)⟩
  | cons m rest ih =>
    intro t ht
    by_cases hz : (fetch m.name).isEmpty
    · obtain ⟨k, hk, hrd, hinv, hlast⟩ := ih t ht
      have hlen : (fetch m.name).length = 0 := by
        rw [List.isEmpty_iff.mp hz]; rfl
      refine ⟨k + 1, by simpa using Nat.succ_le_succ hk, ?_, ?_, ?_⟩
      · show (load_loop fetch maxEvents (m :: rest) t).2.2 = _
        unfold load_loop
        rw [if_pos hz]
        simpa using hrd
      · intro j hj
        cases j with
        | zero => simpa [rowsBefore_zero] using ht
        | succ i =>
          rw [rowsBefore_cons, hlen]
          simpa using hinv i (by omega)
      · intro hkl
        rw [rowsBefore_cons, hlen]
        simpa using hlast (by simpa using hkl)
    · by_cases hcap : maxEvents ≤ t + (fetch m.name).length
      · refine ⟨1, by simp, ?_, ?_, ?_⟩
        · show (load_loop fetch maxEvents (m :: rest) t).2.2 = _
          unfold load_loop
          rw [if_neg hz, if_pos hcap]
          simp
        · intro j hj
          have : j = 0 := by omega
          subst this
          simpa [rowsBefore_zero] using ht
        · intro _
          rw [show (1 : Nat) = 0 + 1 by rfl, rowsBefore_cons, rowsBefore_zero]
          omega
      · have hlt : t + (fetch m.name).length < maxEvents := by omega
        obtain ⟨k, hk, hrd, hinv, hlast⟩ := ih (t + (fetch m.name).length) hlt
        refine ⟨k + 1, by simpa using Nat.succ_le_succ hk, ?_, ?_, ?_⟩
        · show (load_loop fetch maxEvents (m :: rest) t).2.2 = _
          unfold load_loop
          rw [if_neg hz, if_neg hcap]
          simpa using hrd
        · intro j hj
          cases j with
          | zero => simpa [rowsBefore_zero] using ht
          | succ i =>
            rw [rowsBefore_cons]
            have := hinv i (by omega)
            omega
        · intro hkl
          rw [rowsBefore_cons]
          have := hlast (by simpa using hkl)
          omega

/-- C9: with a positive blob cap and a positive event cap, at most the
last `maxBlobs` documents of the name-sorted, extension-filtered
listing are considered at all (the selection is a suffix of the sorted
list of length at most `maxBlobs`), and the loop stops fetching as
soon as the accumulated record count reaches `maxEvents`: the fetched
names are a prefix of the selection, every fetch starts below the cap,
and an early stop only happens because the cap was reached. -/
theorem C9_bounded_work {α : Type} (fetch : String → List α) (patterns : String)
    (maxBlobs maxEvents : Nat) (meta : List BlobMeta)
    (hb : 0 < maxBlobs) (he : 0 < maxEvents) :
    (selectBlobs patterns maxBlobs meta).length ≤ maxBlobs ∧
    (∃ pre, (filterByPatterns patterns meta).mergeSort nameLe =
      pre ++ selectBlobs patterns maxBlobs meta) ∧
    (∃ k ≤ (selectBlobs patterns maxBlobs meta).length,
      (load_board fetch patterns maxBlobs maxEvents meta).2.2 =
        ((selectBlobs patterns maxBlobs meta).map BlobMeta.name).take k ∧
      (∀ j < k, rowsBefore fetch (selectBlobs patterns maxBlobs meta) j < maxEvents) ∧
      (k < (selectBlobs patterns maxBlobs meta).length →
        maxEvents ≤ rowsBefore fetch (selectBlobs patterns maxBlobs meta) k)) := by
  refine ⟨?_, ?_, ?_⟩
  · simp only [selectBlobs]
    split
    case isTrue h =>
      rw [List.length_drop]
      omega
    case isFalse h =>
      push_neg at h
      have := h (by omega)
      omega
  · simp only [selectBlobs]
    split
    case isTrue h =>
      exact ⟨((filterByPatterns patterns meta).mergeSort nameLe).take
        (((filterByPatterns patterns meta).mergeSort nameLe).length - maxBlobs),
        (List.take_append_drop _ _).symm⟩
    case isFalse h => exact ⟨[], rfl⟩
  · obtain ⟨k, hk, hrd, hinv, hlast⟩ :=
      load_loop_reads fetch maxEvents (selectBlobs patterns maxBlobs meta) 0 he
    exact ⟨k, hk, hrd, fun j hj => by simpa using hinv j hj,
      fun hkl => by simpa using hlast hkl⟩

/-- Witness for C9 at a concrete instantiation: three blobs, an
extension filter keeping two, a blob cap of 2 and an event cap of 1. -/
theorem C9_bounded_work_witness :
    (selectBlobs ".log" 2 [⟨"b.log", "e1"⟩, ⟨"a.log", "e2"⟩, ⟨"c.txt", "e3"⟩]).length ≤ 2 ∧
    (∃ pre, (filterByPatterns ".log"
        [⟨"b.log", "e1"⟩, ⟨"a.log", "e2"⟩, ⟨"c.txt", "e3"⟩]).mergeSort nameLe =
      pre ++ selectBlobs ".log" 2 [⟨"b.log", "e1"⟩, ⟨"a.log", "e2"⟩, ⟨"c.txt", "e3"⟩]) ∧
    (∃ k ≤ (selectBlobs ".log" 2 [⟨"b.log", "e1"⟩, ⟨"a.log", "e2"⟩, ⟨"c.txt", "e3"⟩]).length,
      (load_board (fun _ => [0]) ".log" 2 1
          [⟨"b.log", "e1"⟩, ⟨"a.log", "e2"⟩, ⟨"c.txt", "e3"⟩]).2.2 =
        ((selectBlobs ".log" 2
          [⟨"b.log", "e1"⟩, ⟨"a.log", "e2"⟩, ⟨"c.txt", "e3"⟩]).map BlobMeta.name).take k ∧
      (∀ j < k, rowsBefore (fun _ => [0])
          (selectBlobs ".log" 2 [⟨"b.log", "e1"⟩, ⟨"a.log", "e2"⟩, ⟨"c.txt", "e3"⟩]) j < 1) ∧
      (k < (selectBlobs ".log" 2 [⟨"b.log", "e1"⟩, ⟨"a.log", "e2"⟩, ⟨"c.txt", "e3"⟩]).length →
        1 ≤ rowsBefore (fun _ => [0])
          (selectBlobs ".log" 2 [⟨"b.log", "e1"⟩, ⟨"a.log", "e2"⟩, ⟨"c.txt", "e3"⟩]) k)) :=
  C9_bounded_work (fun _ => [0]) ".log" 2 1
    [⟨"b.log", "e1"⟩, ⟨"a.log", "e2"⟩, ⟨"c.txt", "e3"⟩] (by decide) (by decide)

/-! ### C4: the latest-record reducer (modelled from the spec) -/

/-- Modelled from the spec: the record shape consumed by
`reduceLatestByDevice` — a device identifier, an optional observation
time (file last-modified), and the terminal success/ready flag.  The
function itself is absent from src/ (the spec lists it as a core
interface, `reduceLatestByDevice(records, keyFn, timeFn)`), so it and
its record type are reconstructed from spec sections 3, 4.4 and 6. -/
structure OutcomeRecord where
  deviceId : String
  observedAt : Option Int
  success : Bool
deriving DecidableEq, Inhabited

/-- Modelled from the spec: the "chronologically latest" order on
optional timestamps — a missing timestamp sorts below every present
one, and `obsLe a b` means the record timed `b` is at least as recent,
so on ties (and on two missing timestamps) the later entry wins. -/
def obsLe : Option Int → Option Int → Bool
  | none, _ => true
  | some _, none => false
  | some a, some b => a ≤ b

/-- Modelled from the spec: fold step of the reducer — replace the
device's kept record unless the kept one is strictly more recent. -/
def upsertLatest (acc : List (String × OutcomeRecord)) (r : OutcomeRecord) :
    List (String × OutcomeRecord) :=
  match acc with
  | [] => [(r.deviceId, r)]
  | (k, old) :: rest =>
    if k = r.deviceId then
      if obsLe old.observedAt r.observedAt then (k, r) :: rest else (k, old) :: rest
    else (k, old) :: upsertLatest rest r

/-- Modelled from the spec: `reduceLatestByDevice(records, keyFn,
timeFn) -> mapping deviceId -> record`, as an association list in
first-seen key order. -/
def reduceLatestByDevice (records : List OutcomeRecord) : List (String × OutcomeRecord) :=
  records.foldl upsertLatest []

/-- Modelled from the spec: the success side of the partition of the
reduced set. -/
def successTable (m : List (String × OutcomeRecord)) : List (String × OutcomeRecord) :=
  m.filter (fun p => p.2.success)

/-- Modelled from the spec: the failure side of the partition. -/
def failureTable (m : List (String × OutcomeRecord)) : List (String × OutcomeRecord) :=
  m.filter (fun p => !p.2.success)

theorem obsLe_refl (a : Option Int) : obsLe a a = true := by
  cases a <;> simp [obsLe]

theorem obsLe_of_not (a b : Option Int) (h : obsLe a b = false) : obsLe b a = true := by
  cases a <;> cases b <;> simp_all [obsLe]
  all_goals omega

theorem obsLe_trans {a b c : Option Int} (h1 : obsLe a b = true) (h2 : obsLe b c = true) :
    obsLe a c = true := by
  cases a <;> cases b <;> cases c <;> simp_all [obsLe]
  all_goals omega

/-- One reduced entry is keyed by its record's device id, holds an
input record, and dominates every input record with the same id. -/
def EntryDominates (processed : List OutcomeRecord) (p : String × OutcomeRecord) : Prop :=
  p.2.deviceId = p.1 ∧ p.2 ∈ processed ∧
    ∀ s ∈ processed, s.deviceId = p.1 → obsLe s.observedAt p.2.observedAt = true

theorem upsert_keys (r : OutcomeRecord) :
    ∀ acc : List (String × OutcomeRecord),
      (upsertLatest acc r).map Prod.fst =
        if r.deviceId ∈ acc.map Prod.fst then acc.map Prod.fst
        else acc.map Prod.fst ++ [r.deviceId] := by
  intro acc
  induction acc with
  | nil => simp [upsertLatest]
  | cons p rest ih =>
    obtain ⟨k, old⟩ := p
    unfold upsertLatest
    by_cases hk : k = r.deviceId
    · subst hk
      by_cases hle : obsLe old.observedAt r.observedAt <;> simp [hle]
    · simp only [if_neg hk, List.map_cons, ih]
      by_cases hmem : r.deviceId ∈ rest.map Prod.fst
      · simp [hmem, hk, Ne.symm hk]
      · simp [hmem, hk, Ne.symm hk]

theorem upsert_entries (r : OutcomeRecord) (processed : List OutcomeRecord) :
    ∀ acc : List (String × OutcomeRecord),
      ((acc.map Prod.fst).Nodup) →
      (∀ p ∈ acc, EntryDominates processed p) →
      (r.deviceId ∉ acc.map Prod.fst → ∀ s ∈ processed, s.deviceId ≠ r.deviceId) →
      ∀ p ∈ upsertLatest acc r, EntryDominates (processed ++ [r]) p := by
  intro acc
  induction acc with
  | nil =>
    intro _ _ hfresh p hp
    simp only [upsertLatest, List.mem_singleton] at hp
    subst hp
    refine ⟨rfl, by simp, ?_⟩
    intro s hs hsid
    rcases List.mem_append.mp hs with hs | hs
    · exact absurd hsid (hfresh (by simp) s hs)
    · rw [List.mem_singleton] at hs
      subst hs
      exact obsLe_refl _
  | cons q rest ih =>
    obtain ⟨k, old⟩ := q
    intro hnd hent hfresh p hp
    have hndk : k ∉ rest.map Prod.fst := (List.nodup_cons.mp hnd).1
    have hndr : (rest.map Prod.fst).Nodup := (List.nodup_cons.mp hnd).2
    have hold := hent (k, old) (List.mem_cons_self _ _)
    unfold upsertLatest at hp
    by_cases hk : k = r.deviceId
    · rw [if_pos hk] at hp
      by_cases hle : obsLe old.observedAt r.observedAt
      · rw [if_pos hle] at hp
        rcases List.mem_cons.mp hp with hp1 | hp2
        · subst hp1
          refine ⟨hk.symm, by simp, ?_⟩
          intro s hs hsid
          rcases List.mem_append.mp hs with hs | hs
          · exact obsLe_trans (hold.2.2 s hs hsid) hle
          · rw [List.mem_singleton] at hs
            subst hs
            exact obsLe_refl _
        · have hd := hent p (List.mem_cons_of_mem _ hp2)
          refine ⟨hd.1, List.mem_append_left _ hd.2.1, ?_⟩
          intro s hs hsid
          rcases List.mem_append.mp hs with hs | hs
          · exact hd.2.2 s hs hsid
          · rw [List.mem_singleton] at hs
            subst hs
            exfalso
            apply hndk
            rw [hk, hsid]
            exact List.mem_map.mpr ⟨p, hp2, rfl⟩
      · rw [if_neg hle] at hp
        rcases List.mem_cons.mp hp with hp1 | hp2
        · subst hp1
          refine ⟨hold.1, List.mem_append_left _ hold.2.1, ?_⟩
          intro s hs hsid
          rcases List.mem_append.mp hs with hs | hs
          · exact hold.2.2 s hs hsid
          · rw [List.mem_singleton] at hs
            subst hs
            exact obsLe_of_not _ _ (by simpa using hle)
        · have hd := hent p (List.mem_cons_of_mem _ hp2)
          refine ⟨hd.1, List.mem_append_left _ hd.2.1, ?_⟩
          intro s hs hsid
          rcases List.mem_append.mp hs with hs | hs
          · exact hd.2.2 s hs hsid
          · rw [List.mem_singleton] at hs
            subst hs
            exfalso
            apply hndk
            rw [hk, hsid]
            exact List.mem_map.mpr ⟨p, hp2, rfl⟩
    · rw [if_neg hk] at hp
      rcases List.mem_cons.mp hp with hp1 | hp2
      · subst hp1
        refine ⟨hold.1, List.mem_append_left _ hold.2.1, ?_⟩
        intro s hs hsid
        rcases List.mem_append.mp hs with hs | hs
        · exact hold.2.2 s hs hsid
        · rw [List.mem_singleton] at hs
          subst hs
          exact absurd hsid.symm hk
      · refine ih hndr (fun q hq => hent q (List.mem_cons_of_mem _ hq)) ?_ p hp2
        intro hnot s hs
        refine hfresh ?_ s hs
        simp only [List.map_cons, List.mem_cons, not_or]
        exact ⟨fun hh => hk hh.symm, hnot⟩

theorem upsert_nodup (r : OutcomeRecord) (acc : List (String × OutcomeRecord))
    (hnd : (acc.map Prod.fst).Nodup) : ((upsertLatest acc r).map Prod.fst).Nodup := by
  rw [upsert_keys]
  split
  · exact hnd
  case isFalse h =>
    rw [List.nodup_append]
    exact ⟨hnd, List.nodup_singleton _,
      fun a ha hb => h ((List.mem_singleton.mp hb) ▸ ha)⟩

theorem upsert_ids (r : OutcomeRecord) (acc : List (String × OutcomeRecord)) (id : String) :
    id ∈ (upsertLatest acc r).map Prod.fst ↔
      (id ∈ acc.map Prod.fst ∨ id = r.deviceId) := by
  rw [upsert_keys]
  split
  case isTrue h =>
    constructor
    · exact Or.inl
    · rintro (h1 | rfl)
      · exact h1
      · exact h
  case isFalse h => simp

/-- The reducer invariant: no duplicate keys, key set equals the set of
device ids seen so far, and each kept entry dominates its id. -/
def ReduceInv (processed : List OutcomeRecord) (acc : List (String × OutcomeRecord)) : Prop :=
  (acc.map Prod.fst).Nodup ∧
  (∀ id, id ∈ acc.map Prod.fst ↔ id ∈ processed.map OutcomeRecord.deviceId) ∧
  (∀ p ∈ acc, EntryDominates processed p)

theorem reduceInv_step {processed : List OutcomeRecord}
    {acc : List (String × OutcomeRecord)} (r : OutcomeRecord)
    (h : ReduceInv processed acc) : ReduceInv (processed ++ [r]) (upsertLatest acc r) := by
  obtain ⟨hnd, hiff, hent⟩ := h
  refine ⟨upsert_nodup r acc hnd, ?_, ?_⟩
  · intro id
    rw [upsert_ids r acc id, hiff id]
    simp
  · intro p hp
    refine upsert_entries r processed acc hnd hent ?_ p hp
    intro hnot s hs hsid
    exact hnot ((hiff _).mpr (List.mem_map.mpr ⟨s, hs, hsid⟩))

theorem reduce_inv (records : List OutcomeRecord) :
    ∀ (processed : List OutcomeRecord) (acc : List (String × OutcomeRecord)),
      ReduceInv processed acc →
      ReduceInv (processed ++ records) (records.foldl upsertLatest acc) := by
  induction records with
  | nil => intro p a h; simpa using h
  | cons r rs ih =>
    intro p a h
    have h3 := ih (p ++ [r]) (upsertLatest a r) (reduceInv_step r h)
    simpa [List.append_assoc] using h3

/-- C4 (modelled from the spec, `reduceLatestByDevice` being absent
from src/): the reduced output has exactly one entry per distinct
input deviceId (no duplicate keys, and an id is a key iff it occurs in
the input), each kept entry is an input record for its key whose
`observedAt` dominates, in the missing-sorts-lowest order, every input
record with that id; and the success/failure tables partition the
reduced set: membership is decided solely by the kept record's flag,
and their concatenation is a permutation of the reduced set, so every
deviceId appears exactly once in the union of the two tables. -/
theorem C4_reduce_latest (records : List OutcomeRecord) :
    ((reduceLatestByDevice records).map Prod.fst).Nodup ∧
    (∀ id, id ∈ (reduceLatestByDevice records).map Prod.fst ↔
       id ∈ records.map OutcomeRecord.deviceId) ∧
    (∀ p ∈ reduceLatestByDevice records,
       p.2.deviceId = p.1 ∧ p.2 ∈ records ∧
       ∀ s ∈ records, s.deviceId = p.1 → obsLe s.observedAt p.2.observedAt = true) ∧
    (∀ p ∈ reduceLatestByDevice records,
       (p ∈ successTable (reduceLatestByDevice records) ↔ p.2.success = true) ∧
       (p ∈ failureTable (reduceLatestByDevice records) ↔ p.2.success = false)) ∧
    (successTable (reduceLatestByDevice records) ++
       failureTable (reduceLatestByDevice records)).Perm (reduceLatestByDevice records) := by
  have hinv := reduce_inv records [] [] ⟨by simp, by simp, by simp⟩
  simp only [List.nil_append] at hinv
  obtain ⟨hnd, hiff, hent⟩ := hinv
  refine ⟨hnd, hiff, hent, ?_, ?_⟩
  · intro p hp
    constructor
    · simp [successTable, List.mem_filter, hp]
    · simp [failureTable, List.mem_filter, hp]
  · exact List.filter_append_perm _ _

/-- Three demo records: two for device "a" (the later observation
wins), one for "b" with no timestamp. -/
def demoRecords : List OutcomeRecord :=
  [⟨"a", some 1, true⟩, ⟨"b", none, false⟩, ⟨"a", some 2, false⟩]

/-- Witness for C4 on the demo records: the reduction keeps the latest
record of "a" and the only record of "b", and its key set matches the
input ids. -/
theorem C4_reduce_latest_witness :
    reduceLatestByDevice demoRecords =
      [("a", ⟨"a", some 2, false⟩), ("b", ⟨"b", none, false⟩)] ∧
    (∀ id, id ∈ (reduceLatestByDevice demoRecords).map Prod.fst ↔
      id ∈ demoRecords.map OutcomeRecord.deviceId) :=
  ⟨rfl, (C4_reduce_latest demoRecords).2.1⟩

end ChromeFRD
